import Mathlib

/-!
Shallow embedding of the `image-bed` CLI (TypeScript) in Lean 4.

The repository has three command objects sharing one configuration:
`GitHubImageUploader` (script/upload-image.ts), `GitHubImageLister`
(server/script/list-image.ts) and `GitHubImageDeleter`.

Modelling conventions:
* JS strings are `List Char`; string literals appear as `"...".data`.
* JS numbers that hold byte counts / timestamps are `ℕ`; `Math.floor (Math.log
  bytes / Math.log 1024)` is the exact `Nat.log 1024`, and
  `parseFloat (x.toFixed 2)` is exact round-to-nearest (ties up) to two
  decimals, kept as the natural number `100 * value`.
* Effectful library calls (axios HTTP requests, `fs`) are oracles passed in as
  parameters, threaded through an abstract world state `σ`; every issued HTTP
  request is also recorded in a trace list so that theorems can speak about
  which requests a run performs.
* Thrown JS exceptions are `Except JsError`; a `try/catch` block is the
  corresponding `match`.
-/

/-- Decimal digit characters of `n` (most significant first), with `fuel`
structural fuel (`fuel ≥ n` suffices).  Models JS number-to-string conversion
for nonneg integers. -/
def natCharsAux : ℕ → ℕ → List Char
  | 0, _ => []
  | _ + 1, 0 => []
  | fuel + 1, n + 1 =>
    natCharsAux fuel ((n + 1) / 10) ++ [Nat.digitChar ((n + 1) % 10)]

/-- JS decimal rendering of a nonneg integer (`String(n)`). -/
def natChars (n : ℕ) : List Char :=
  if n = 0 then ['0'] else natCharsAux n n

/-- Model of node `path.basename` (no extension argument) for paths that do not
end in a separator: the characters after the last `/`. -/
def basename (s : List Char) : List Char :=
  s.foldl (fun acc c => if c = '/' then [] else acc ++ [c]) []

/-- Index of the last `.` in a list of characters, if any. -/
def lastDotIdx (b : List Char) : Option ℕ :=
  if '.' ∈ b then some (b.length - 1 - b.reverse.indexOf '.') else none

/-- Model of node `path.extname`: the suffix of the basename from its last dot,
empty when there is no dot or the only dot is the leading character. -/
def extname (s : List Char) : List Char :=
  let b := basename s
  match lastDotIdx b with
  | none => []
  | some 0 => []
  | some (i + 1) => b.drop (i + 1)

/-- Model of node `path.basename(p, ext)`: the basename with a trailing proper
occurrence of `ext` stripped. -/
def basenameWithExt (p ext : List Char) : List Char :=
  let b := basename p
  if ext ≠ [] ∧ ext ≠ b ∧ b.drop (b.length - ext.length) = ext then
    b.take (b.length - ext.length)
  else b

/-- Model of JS `String.indexOf`: position of the first occurrence of `needle`
as a contiguous substring, `none` standing for the JS result `-1`. -/
def indexOfSub (needle : List Char) : List Char → Option ℕ
  | [] => if needle = [] then some 0 else none
  | c :: cs =>
    if needle.isPrefixOf (c :: cs) then some 0
    else (indexOfSub needle cs).map (· + 1)

/-- Model of the JS falsy-or `a || b` on `error.response?.data?.message ||
error.message`: an absent or empty first operand falls through to the second. -/
def orElseFalsy (a : Option (List Char)) (b : List Char) : List Char :=
  match a with
  | some m => if m = [] then b else m
  | none => b

/-- The four configuration settings every command object reads (owner, repo,
token, branch); `apiUrl` is the constant `https://api.github.com`. -/
structure ClientConfig where
  owner : List Char
  repo : List Char
  token : List Char
  branch : List Char

/-- A JS exception: an axios HTTP error (optional response status, optional
response-body message, message) or a plain `Error`. -/
inductive JsError where
  | axiosError (status : Option ℕ) (dataMessage : Option (List Char))
      (message : List Char)
  | jsError (message : List Char)

/-- One HTTP request issued against the GitHub contents API, as recorded in the
run trace. -/
inductive ApiRequest where
  | get (url : List Char)
  | put (url : List Char) (message : List Char) (content : List Char)
      (branch : List Char)
  | delete (url : List Char) (message : List Char) (sha : List Char)
      (branch : List Char)

/-- `${apiUrl}/repos/${owner}/${repo}/contents/${filePath}`. -/
def contentsUrl (cfg : ClientConfig) (filePath : List Char) : List Char :=
  "https://api.github.com/repos/".data ++ cfg.owner ++ "/".data ++ cfg.repo ++
    "/contents/".data ++ filePath

/-- `${apiUrl}/repos/${owner}/${repo}/contents/${filePath}?ref=${branch}`, the
read URL used by `getFileSha` and the lister. -/
def shaUrl (cfg : ClientConfig) (filePath : List Char) : List Char :=
  contentsUrl cfg filePath ++ "?ref=".data ++ cfg.branch

/-- `GitHubImageLister.formatSize`: the unit table `['B','KB','MB','GB','TB']`. -/
def sizes : List (List Char) :=
  ["B".data, "KB".data, "MB".data, "GB".data, "TB".data]

/-- The unit index `Math.floor (Math.log bytes / Math.log 1024)` chosen by
`formatSize` (exact real logarithm, i.e. `Nat.log`). -/
def formatSizeIndex (bytes : ℕ) : ℕ :=
  Nat.log 1024 bytes

/-- One hundred times the magnitude displayed by `formatSize`:
`parseFloat ((bytes / 1024 ^ i).toFixed 2)` scaled by `100`, i.e. the exact
rational `bytes / 1024 ^ i` rounded to the nearest multiple of `1/100` with
ties rounding up. -/
def shown100 (bytes : ℕ) : ℕ :=
  (200 * bytes + 1024 ^ formatSizeIndex bytes) /
    (2 * 1024 ^ formatSizeIndex bytes)

/-- Decimal rendering of the displayed magnitude `n / 100` the way
`parseFloat (x.toFixed 2)` then string concatenation shows it: up to two
decimal places, trailing zeros dropped. -/
def renderShown (n : ℕ) : List Char :=
  if n % 100 = 0 then natChars (n / 100)
  else if n % 10 = 0 then
    natChars (n / 100) ++ '.' :: natChars (n / 10 % 10)
  else
    natChars (n / 100) ++ '.' ::
      (if n % 100 < 10 then '0' :: natChars (n % 100) else natChars (n % 100))

/-- The unit string `sizes[i]`; an out-of-range JS index yields `undefined`,
which string concatenation renders as `"undefined"`. -/
def sizesAt (i : ℕ) : List Char :=
  match sizes.get? i with
  | some u => u
  | none => "undefined".data

/-- `GitHubImageLister.formatSize`: `'0 B'` for zero, otherwise the rounded
scaled magnitude, a space, and the base-1024 unit. -/
def formatSize (bytes : ℕ) : List Char :=
  if bytes = 0 then "0 B".data
  else renderShown (shown100 bytes) ++ ' ' :: sizesAt (formatSizeIndex bytes)

/-- The GitHub contents-API file descriptor (`GitHubFileResponse` interface). -/
structure GitHubFileResponse where
  name : List Char
  path : List Char
  sha : List Char
  size : ℕ
  url : List Char
  html_url : List Char
  git_url : List Char
  download_url : List Char
  type : List Char

/-- The literal needle matched by the deleter's first regular expression
`raw\.githubusercontent\.com/${owner}/${repo}/${branch}/(.+)`. -/
def rawNeedle (owner repo branch : List Char) : List Char :=
  "raw.githubusercontent.com/".data ++ owner ++ "/".data ++ repo ++
    "/".data ++ branch ++ "/".data

/-- The literal part of the deleter's second regular expression
`cdn\.jsdelivr\.net/gh/${owner}/${repo}(?:@${branch})?/(.+)`. -/
def cdnBase (owner repo : List Char) : List Char :=
  "cdn.jsdelivr.net/gh/".data ++ owner ++ "/".data ++ repo

/-- Unanchored leftmost match of `needle(.+)` against the input: the capture
group is everything after the first occurrence of `needle` that is followed by
at least one character. -/
def rawScan (needle : List Char) : List Char → Option (List Char)
  | [] => none
  | c :: cs =>
    if needle.isPrefixOf (c :: cs) ∧ (c :: cs).drop needle.length ≠ [] then
      some ((c :: cs).drop needle.length)
    else rawScan needle cs

/-- Unanchored leftmost match of `base(?:@branch)?/(.+)`: at each candidate
position the optional `@branch` is tried greedily, then the mandatory `/`,
then the nonempty capture; on failure the scan moves right. -/
def cdnScan (base branch : List Char) : List Char → Option (List Char)
  | [] => none
  | c :: cs =>
    if base.isPrefixOf (c :: cs) then
      let rest := (c :: cs).drop base.length
      let withAt := '@' :: branch ++ ['/']
      if withAt.isPrefixOf rest ∧ rest.drop withAt.length ≠ [] then
        some (rest.drop withAt.length)
      else if ['/'].isPrefixOf rest ∧ rest.drop 1 ≠ [] then
        some (rest.drop 1)
      else cdnScan base branch cs
    else cdnScan base branch cs

/-- `GitHubImageDeleter.parsePath`: resolve a path or URL to a
repository-relative path.  Inputs beginning with `http` go through, in order,
the raw-content regex, the CDN regex, and the substring fallback (everything
after `${branch}/` following the first occurrence of the repo name); anything
else — and any input not beginning with `http` — is returned unchanged. -/
def parsePath (owner repo branch : List Char) (input : List Char) : List Char :=
  if ("http".data).isPrefixOf input then
    match rawScan (rawNeedle owner repo branch) input with
    | some m => m
    | none =>
      match cdnScan (cdnBase owner repo) branch input with
      | some m => m
      | none =>
        match indexOfSub repo input with
        | some repoIndex =>
          let afterRepo := input.drop (repoIndex + repo.length)
          match indexOfSub branch afterRepo with
          | some branchIndex => afterRepo.drop (branchIndex + branch.length + 1)
          | none => input
        | none => input
  else input

/-- The two HTTP operations the deleter performs, as a state-threaded oracle:
`get` answers `axios.get` on a contents URL, `del` answers `axios.delete`
given url, commit message, sha and branch. -/
structure DeleterApi (σ : Type) where
  get : σ → List Char → Except JsError GitHubFileResponse × σ
  del : σ → List Char → List Char → List Char → List Char →
    Except JsError Unit × σ

/-- The generated commit message `Delete image: ${path.basename filePath}`. -/
def deleteMessage (filePath : List Char) : List Char :=
  "Delete image: ".data ++ basename filePath

/-- The `catch` clause of `getFileSha`: a 404 axios error becomes the
descriptive plain error `找不到檔案: ${filePath}`, anything else is rethrown
unchanged. -/
def notFoundWrap (e : JsError) (filePath : List Char) : JsError :=
  match e with
  | JsError.axiosError (some 404) _ _ =>
    JsError.jsError ("找不到檔案: ".data ++ filePath)
  | _ => e

/-- `GitHubImageDeleter.getFileSha`: GET the file descriptor and return its
`sha`; a 404 axios error becomes the descriptive plain error
`找不到檔案: ${filePath}`, any other error is rethrown.  Also returns the
requests issued and the new world state. -/
def getFileSha {σ : Type} (api : DeleterApi σ) (cfg : ClientConfig) (s : σ)
    (filePath : List Char) :
    Except JsError (List Char) × List ApiRequest × σ :=
  let url := shaUrl cfg filePath
  let r := api.get s url
  (match r.1 with
   | Except.ok resp => Except.ok resp.sha
   | Except.error e => Except.error (notFoundWrap e filePath),
   ([ApiRequest.get url], r.2))

/-- The `try` body of `GitHubImageDeleter.deleteImage`: resolve the path, get
the sha, then issue the DELETE with that sha, the generated message and the
configured branch. -/
def deleteImageBody {σ : Type} (api : DeleterApi σ) (cfg : ClientConfig)
    (s : σ) (inputPath : List Char) :
    Except JsError Unit × List ApiRequest × σ :=
  let filePath := parsePath cfg.owner cfg.repo cfg.branch inputPath
  let g := getFileSha api cfg s filePath
  match g.1 with
  | Except.error e => (Except.error e, g.2)
  | Except.ok sha =>
    let url := contentsUrl cfg filePath
    let d := api.del g.2.2 url (deleteMessage filePath) sha cfg.branch
    let req := ApiRequest.delete url (deleteMessage filePath) sha cfg.branch
    (match d.1 with
     | Except.ok _ => Except.ok ()
     | Except.error e => Except.error e,
     (g.2.1 ++ [req], d.2))

/-- What `deleteImage` reports: success, or the logged message of a caught
axios / non-axios error.  There is no constructor for a propagated error —
the `catch` block swallows everything. -/
inductive DeleteOutcome where
  | success
  | axiosFailure (message : List Char)
  | otherFailure (message : List Char)

/-- `GitHubImageDeleter.deleteImage`: run the body under `try/catch`; an axios
error is logged as `error.response?.data?.message || error.message`, any other
error as `error.message`; nothing is rethrown. -/
def deleteImage {σ : Type} (api : DeleterApi σ) (cfg : ClientConfig) (s : σ)
    (inputPath : List Char) : DeleteOutcome × List ApiRequest × σ :=
  let b := deleteImageBody api cfg s inputPath
  (match b.1 with
   | Except.ok _ => DeleteOutcome.success
   | Except.error (JsError.axiosError _ dataMsg msg) =>
     DeleteOutcome.axiosFailure (orElseFalsy dataMsg msg)
   | Except.error (JsError.jsError msg) => DeleteOutcome.otherFailure msg,
   b.2)

/-- `GitHubImageDeleter.deleteImages`: sequential `for` loop, one
`deleteImage` per input, collecting each reported outcome. -/
def deleteImages {σ : Type} (api : DeleterApi σ) (cfg : ClientConfig) :
    σ → List (List Char) → List DeleteOutcome × σ
  | s, [] => ([], s)
  | s, i :: is =>
    let r := deleteImage api cfg s i
    let rest := deleteImages api cfg r.2.2 is
    (r.1 :: rest.1, rest.2)

/-- The `content` record inside a successful upload response
(`GitHubUploadResponse.content`). -/
structure UploadContent where
  name : List Char
  path : List Char
  sha : List Char
  size : ℕ
  url : List Char
  html_url : List Char
  git_url : List Char
  download_url : List Char

/-- The GitHub create-or-update response (`GitHubUploadResponse`). -/
structure GitHubUploadResponse where
  content : UploadContent

/-- The body of the uploader's PUT request: url, commit message, base64
content, branch. -/
structure PutRequest where
  url : List Char
  message : List Char
  content : List Char
  branch : List Char

/-- The node `fs` + `Buffer` surface the uploader touches: `existsSync`,
`readFileSync` (file contents of type `γ`, only read for existing files) and
`Buffer.toString('base64')`. -/
structure FileSystem (γ : Type) where
  existsSync : List Char → Bool
  readFileSync : List Char → γ
  toBase64 : γ → List Char

/-- `GitHubImageUploader.fileToBase64`: read the file and base64-encode it. -/
def fileToBase64 {γ : Type} (fs : FileSystem γ) (filePath : List Char) :
    List Char :=
  fs.toBase64 (fs.readFileSync filePath)

/-- `GitHubImageUploader.generateFileName`:
`${nameWithoutExt}-${timestamp}${ext}` with `ext = path.extname originalName`
and `nameWithoutExt = path.basename originalName ext`; `ts` is the `Date.now()`
unix-epoch-milliseconds value. -/
def generateFileName (ts : ℕ) (originalName : List Char) : List Char :=
  let ext := extname originalName
  let nameWithoutExt := basenameWithExt originalName ext
  nameWithoutExt ++ "-".data ++ natChars ts ++ ext

/-- The generated commit message `Upload image: ${fileName}`. -/
def uploadMessage (fileName : List Char) : List Char :=
  "Upload image: ".data ++ fileName

/-- `GitHubImageUploader.uploadImage`: fail with a plain error before any
request when the local file does not exist; otherwise build the remote path
`(remotePath ?? 'images')/fileName`, PUT the base64 content, and return the
response's `download_url`.  An axios failure is wrapped into the plain error
`GitHub API 錯誤: ${status} - ${data.message || message}`; other errors are
rethrown as-is.  `put` is the axios PUT oracle, `now` reads the clock from the
world state. -/
def uploadImage {σ γ : Type}
    (put : σ → PutRequest → Except JsError GitHubUploadResponse × σ)
    (fs : FileSystem γ) (cfg : ClientConfig) (now : σ → ℕ) (s : σ)
    (localFilePath : List Char)
    (remotePath customFileName : Option (List Char)) :
    Except JsError (List Char) × List ApiRequest × σ :=
  if fs.existsSync localFilePath = false then
    (Except.error (JsError.jsError ("檔案不存在: ".data ++ localFilePath)),
      ([], s))
  else
    let fileName :=
      customFileName.getD (generateFileName (now s) (basename localFilePath))
    let base64Content := fileToBase64 fs localFilePath
    let remoteDir := remotePath.getD "images".data
    let remoteFilePath := remoteDir ++ "/".data ++ fileName
    let url := contentsUrl cfg remoteFilePath
    let req : PutRequest :=
      ⟨url, uploadMessage fileName, base64Content, cfg.branch⟩
    let r := put s req
    let trace := [ApiRequest.put url (uploadMessage fileName) base64Content
      cfg.branch]
    match r.1 with
    | Except.ok resp => (Except.ok resp.content.download_url, (trace, r.2))
    | Except.error (JsError.axiosError status dataMsg msg) =>
      (Except.error (JsError.jsError ("GitHub API 錯誤: ".data ++
          (match status with
           | some n => natChars n
           | none => "undefined".data) ++ " - ".data ++
          orElseFalsy dataMsg msg)), (trace, r.2))
    | Except.error e => (Except.error e, (trace, r.2))

/-- `GitHubImageUploader.uploadImages`: sequential loop over the paths; each
success contributes its download URL, each caught failure contributes the
empty string, at the input's position. -/
def uploadImages {σ γ : Type}
    (put : σ → PutRequest → Except JsError GitHubUploadResponse × σ)
    (fs : FileSystem γ) (cfg : ClientConfig) (now : σ → ℕ) (s : σ)
    (filePaths : List (List Char)) (remotePath : Option (List Char)) :
    List (List Char) × σ :=
  match filePaths with
  | [] => ([], s)
  | p :: ps =>
    let r := uploadImage put fs cfg now s p remotePath none
    let rest := uploadImages put fs cfg now r.2.2 ps remotePath
    ((match r.1 with
      | Except.ok url => url
      | Except.error _ => []) :: rest.1, rest.2)

/-- The per-input results of the `uploadImage` calls that `uploadImages`
performs, in order, with the world state threaded exactly as in
`uploadImages`. -/
def uploadOutcomes {σ γ : Type}
    (put : σ → PutRequest → Except JsError GitHubUploadResponse × σ)
    (fs : FileSystem γ) (cfg : ClientConfig) (now : σ → ℕ) (s : σ)
    (filePaths : List (List Char)) (remotePath : Option (List Char)) :
    List (Except JsError (List Char)) :=
  match filePaths with
  | [] => []
  | p :: ps =>
    let r := uploadImage put fs cfg now s p remotePath none
    r.1 :: uploadOutcomes put fs cfg now r.2.2 ps remotePath

/-- A sample configuration used to instantiate universally quantified
theorems at concrete inputs. -/
def sampleCfg : ClientConfig :=
  ⟨"acme".data, "pics".data, "tok".data, "main".data⟩

/-- A PUT oracle that always fails, used for concrete instantiations. -/
def failingPut : Unit → PutRequest → Except JsError GitHubUploadResponse × Unit :=
  fun s _ => (Except.error (JsError.jsError "net down".data), s)

/-- A filesystem with no files, used for concrete instantiations. -/
def emptyFs : FileSystem Unit :=
  ⟨fun _ => false, fun _ => (), fun _ => []⟩

lemma natCharsAux_ne_nil {fuel n : ℕ} (hf : 1 ≤ fuel) (hn : 1 ≤ n) :
    natCharsAux fuel n ≠ [] := by
  match fuel, n with
  | f + 1, m + 1 => simp [natCharsAux]

lemma natChars_ne_nil (n : ℕ) : natChars n ≠ [] := by
  unfold natChars
  split
  · simp
  · next h => exact natCharsAux_ne_nil (by omega) (by omega)

lemma digitChar_eq_zero {k : ℕ} (hk : k < 10) (h : Nat.digitChar k = '0') :
    k = 0 := by
  interval_cases k <;> simp_all [Nat.digitChar]

lemma natChars_eq_zero {n : ℕ} (h : natChars n = ['0']) : n = 0 := by
  by_contra hn
  obtain ⟨m, rfl⟩ : ∃ m, n = m + 1 := ⟨n - 1, by omega⟩
  rw [natChars, if_neg hn, natCharsAux] at h
  have hlen := congrArg List.length h
  simp [List.length_append] at hlen
  have hnil : natCharsAux m ((m + 1) / 10) = [] := hlen
  rw [hnil] at h
  simp at h
  have hd : (m + 1) % 10 = 0 :=
    digitChar_eq_zero (Nat.mod_lt _ (by norm_num)) h
  have hge : 10 ≤ m + 1 := by omega
  exact natCharsAux_ne_nil (by omega) (by omega) hnil

lemma shown100_lower {b : ℕ} (hb : b ≠ 0) : 100 ≤ shown100 b := by
  have hk : 0 < 1024 ^ formatSizeIndex b := Nat.pos_pow_of_pos _ (by norm_num)
  have hle : 1024 ^ formatSizeIndex b ≤ b := Nat.pow_log_le_self 1024 hb
  rw [shown100, Nat.le_div_iff_mul_le (by omega)]
  nlinarith

lemma shown100_upper (b : ℕ) : shown100 b ≤ 102400 := by
  have hk : 0 < 1024 ^ formatSizeIndex b := Nat.pos_pow_of_pos _ (by norm_num)
  have hlt : b < 1024 ^ (formatSizeIndex b + 1) :=
    Nat.lt_pow_succ_log_self (by norm_num) b
  rw [pow_succ] at hlt
  have h1 : shown100 b < 102401 := by
    rw [shown100, Nat.div_lt_iff_lt_mul (by omega)]
    nlinarith
  omega

lemma renderShown_eq_single_zero {n : ℕ} (h : renderShown n = ['0']) :
    n < 100 := by
  rw [renderShown] at h
  split at h
  · have h0 := natChars_eq_zero h
    omega
  · split at h <;>
      (first
        | (have h1 := congrArg List.length h
           simp [List.length_append] at h1
           have h3 : 0 < (natChars (n / 100)).length :=
             List.length_pos.mpr (natChars_ne_nil _)
           omega))

lemma renderShown_ne_nil (n : ℕ) : renderShown n ≠ [] := by
  rw [renderShown]
  split
  · exact natChars_ne_nil _
  · split <;> simp

lemma sizesAt_ne_nil (i : ℕ) : sizesAt i ≠ [] := by
  rw [sizesAt]
  rcases h : sizes.get? i with _ | u
  · simp
  · have hu : u ∈ sizes := List.get?_mem h
    simp only
    rw [sizes] at hu
    simp only [List.mem_cons, List.not_mem_nil, or_false] at hu
    rcases hu with rfl | rfl | rfl | rfl | rfl <;> decide

lemma formatSize_zero_iff (b : ℕ) : formatSize b = "0 B".data ↔ b = 0 := by
  constructor
  · intro h
    by_contra hb
    rw [formatSize, if_neg hb] at h
    have hob : "0 B".data = ['0', ' ', 'B'] := rfl
    rw [hob] at h
    have hr := renderShown_ne_nil (shown100 b)
    have hu := sizesAt_ne_nil (formatSizeIndex b)
    have hlen := congrArg List.length h
    simp [List.length_append] at hlen
    have hr1 : 0 < (renderShown (shown100 b)).length := List.length_pos.mpr hr
    have hu1 : 0 < (sizesAt (formatSizeIndex b)).length := List.length_pos.mpr hu
    have hrlen : (renderShown (shown100 b)).length = 1 := by omega
    obtain ⟨c, hc⟩ := List.length_eq_one.mp hrlen
    rw [hc] at h
    simp at h
    obtain ⟨hc0, -⟩ := h
    rw [hc0] at hc
    have := renderShown_eq_single_zero hc
    have := shown100_lower hb
    omega
  · rintro rfl
    rfl

/-- Claim C1 (amended): `formatSize` returns `'0 B'` exactly for a zero byte
count; for `0 < b` the chosen index `i = ⌊log₁₀₂₄ b⌋` makes the exact scaled
magnitude `b / 1024 ^ i` lie in `[1, 1024)` (`1024 ^ i ≤ b < 1024 ^ (i+1)`),
while the rendered two-decimal magnitude (`shown100 b / 100`) lies in
`[1, 1024]` — rounding can push it to exactly `1024`; for `0 < b < 1024 ^ 5`
the unit is drawn from the five-entry table. -/
theorem formatSize_correct (b : ℕ) :
    (formatSize b = "0 B".data ↔ b = 0) ∧
    (b ≠ 0 →
      1024 ^ formatSizeIndex b ≤ b ∧ b < 1024 ^ (formatSizeIndex b + 1) ∧
      100 ≤ shown100 b ∧ shown100 b ≤ 102400) ∧
    (b ≠ 0 → b < 1024 ^ 5 →
      formatSizeIndex b < 5 ∧
      ∃ u, sizes.get? (formatSizeIndex b) = some u ∧
        formatSize b = renderShown (shown100 b) ++ ' ' :: u) := by
  refine ⟨formatSize_zero_iff b, ?_, ?_⟩
  · intro hb
    exact ⟨Nat.pow_log_le_self 1024 hb,
      Nat.lt_pow_succ_log_self (by norm_num) b,
      shown100_lower hb, shown100_upper b⟩
  · intro hb hlt
    have hidx : formatSizeIndex b < 5 := Nat.log_lt_of_lt_pow hb hlt
    have hlen : formatSizeIndex b < sizes.length := by simpa [sizes] using hidx
    have hget : sizes.get? (formatSizeIndex b) =
        some (sizes.get ⟨formatSizeIndex b, hlen⟩) := List.get?_eq_get hlen
    refine ⟨hidx, _, hget, ?_⟩
    rw [formatSize, if_neg hb, sizesAt, hget]

/-- Witness for C1 at `b = 5000`: the hypotheses `b ≠ 0` and `b < 1024 ^ 5`
hold and the theorem's conclusions follow. -/
theorem formatSize_correct_witness :
    (1024 ^ formatSizeIndex 5000 ≤ 5000 ∧
      5000 < 1024 ^ (formatSizeIndex 5000 + 1) ∧
      100 ≤ shown100 5000 ∧ shown100 5000 ≤ 102400) ∧
    (formatSizeIndex 5000 < 5 ∧
      ∃ u, sizes.get? (formatSizeIndex 5000) = some u ∧
        formatSize 5000 = renderShown (shown100 5000) ++ ' ' :: u) :=
  ⟨(formatSize_correct 5000).2.1 (by norm_num),
    (formatSize_correct 5000).2.2 (by norm_num) (by norm_num)⟩

/-- Counterexample to C1 as stated: at `b = 1048575` (`1024² - 1`) the
two-decimal rounding of `1048575 / 1024 = 1023.999…` carries up to exactly
`1024`, so the displayed magnitude is `1024`, outside `[1, 1024)`: the output
is `'1024 KB'`. -/
theorem formatSize_shown_can_reach_1024 :
    formatSize 1048575 = "1024 KB".data ∧ 1024 * 100 ≤ shown100 1048575 := by
  have hl : Nat.log 1024 1048575 = 1 :=
    Nat.log_eq_of_pow_le_of_lt_pow (by norm_num) (by norm_num)
  have hidx : formatSizeIndex 1048575 = 1 := hl
  have hs : shown100 1048575 = 102400 := by
    rw [shown100, hidx]
    norm_num
  constructor
  · rw [formatSize, if_neg (by norm_num), hidx, hs]
    decide
  · rw [hs]

/-- Claim C9: for every byte count `b ≥ 1024 ^ 5` the unit index
`⌊log₁₀₂₄ b⌋` is at least `5`, past the end of the five-element unit table, so
the lookup `sizes[i]` is out of range and the concatenated unit renders as
`undefined`. -/
theorem formatSize_unit_overflow (b : ℕ) (hb : 1024 ^ 5 ≤ b) :
    5 ≤ formatSizeIndex b ∧ sizes.get? (formatSizeIndex b) = none ∧
    formatSize b = renderShown (shown100 b) ++ ' ' :: "undefined".data := by
  have hb0 : b ≠ 0 := by
    have : (0:ℕ) < 1024 ^ 5 := by norm_num
    omega
  have h5 : 5 ≤ formatSizeIndex b :=
    (Nat.pow_le_iff_le_log (by norm_num) hb0).mp hb
  have hnone : sizes.get? (formatSizeIndex b) = none := by
    rw [List.get?_eq_none]
    simpa [sizes] using h5
  refine ⟨h5, hnone, ?_⟩
  rw [formatSize, if_neg hb0, sizesAt, hnone]

/-- Witness for C9 at the smallest overflowing byte count `b = 1024 ^ 5`. -/
theorem formatSize_unit_overflow_witness :
    5 ≤ formatSizeIndex (1024 ^ 5) ∧
    sizes.get? (formatSizeIndex (1024 ^ 5)) = none ∧
    formatSize (1024 ^ 5) =
      renderShown (shown100 (1024 ^ 5)) ++ ' ' :: "undefined".data :=
  formatSize_unit_overflow (1024 ^ 5) (le_refl _)

/-- Counterexample to C3 as stated: with owner `acme`, repo `pics`, branch
`main`, the bare repository-relative path
`http-pics/main/http-pics/main/b.png` (not a URL) begins with `http`, so it is
fed to the URL heuristics; one application of `parsePath` yields
`http-pics/main/b.png` and a second application yields `b.png`, so `parsePath`
is not idempotent on it. -/
theorem parsePath_not_idempotent :
    parsePath "acme".data "pics".data "main".data
        (parsePath "acme".data "pics".data "main".data
          "http-pics/main/http-pics/main/b.png".data) ≠
      parsePath "acme".data "pics".data "main".data
        "http-pics/main/http-pics/main/b.png".data := by
  decide

/-- Claim C3 (amended): `parsePath` is idempotent on every input that does not
begin with `http` — on such inputs it is the identity, hence applying it twice
changes nothing. -/
theorem parsePath_idempotent (owner repo branch x : List Char)
    (h : ("http".data).isPrefixOf x = false) :
    parsePath owner repo branch (parsePath owner repo branch x) =
      parsePath owner repo branch x := by
  have hx : parsePath owner repo branch x = x := by
    simp [parsePath, h]
  rw [hx]
  exact hx

/-- Witness for C3 (amended) on the bare relative path `images/a.png`. -/
theorem parsePath_idempotent_witness :
    parsePath "acme".data "pics".data "main".data
        (parsePath "acme".data "pics".data "main".data "images/a.png".data) =
      parsePath "acme".data "pics".data "main".data "images/a.png".data :=
  parsePath_idempotent _ _ _ _ (by decide)

/-- Claim C6: for an input beginning with `http`, the raw-content pattern
`raw.githubusercontent.com/<owner>/<repo>/<branch>/(.+)` is attempted first,
and when it matches, its capture group is returned as the repository-relative
path. -/
theorem parsePath_raw_pattern (owner repo branch input cap : List Char)
    (hhttp : ("http".data).isPrefixOf input = true)
    (hmatch : rawScan (rawNeedle owner repo branch) input = some cap) :
    parsePath owner repo branch input = cap := by
  simp [parsePath, hhttp, hmatch]

/-- Witness for C6, the spec's scenario: with owner=acme, repo=pics,
branch=main, the raw URL resolves to `images/old.png`. -/
theorem parsePath_raw_pattern_witness :
    parsePath "acme".data "pics".data "main".data
        "https://raw.githubusercontent.com/acme/pics/main/images/old.png".data =
      "images/old.png".data :=
  parsePath_raw_pattern _ _ _ _ _ (by decide) (by decide)

/-- Claim C10: `parsePath` decides URL-ness purely by the prefix `http`: every
input without that prefix is returned unchanged, while some bare
repository-relative path beginning with `http` (here `http-pics/main/a.png`
under owner=acme, repo=pics, branch=main) is rewritten by the fallback
heuristic. -/
theorem parsePath_http_discrimination :
    (∀ owner repo branch x : List Char,
        ("http".data).isPrefixOf x = false →
          parsePath owner repo branch x = x) ∧
    ∃ owner repo branch x : List Char,
      ("http".data).isPrefixOf x = true ∧
        parsePath owner repo branch x ≠ x := by
  constructor
  · intro owner repo branch x h
    simp [parsePath, h]
  · exact ⟨"acme".data, "pics".data, "main".data,
      "http-pics/main/a.png".data, by decide, by decide⟩

/-- Witness for C10 on the non-`http` input `images/b.png`. -/
theorem parsePath_http_discrimination_witness :
    parsePath "acme".data "pics".data "main".data "images/b.png".data =
      "images/b.png".data :=
  parsePath_http_discrimination.1 _ _ _ _ (by decide)

/-- Claim C4: `deleteImage` reports success exactly when its `try` body
succeeded — every body failure is caught and turned into a logged failure
outcome rather than propagated — and `deleteImages` always performs one
`deleteImage` per input to completion, so the outcome list has the length of
the input list. -/
theorem deleteImage_never_propagates :
    ∀ (σ : Type) (api : DeleterApi σ) (cfg : ClientConfig) (s : σ)
      (inputs : List (List Char)),
      (deleteImages api cfg s inputs).1.length = inputs.length ∧
      ∀ (s₀ : σ) (input : List Char),
        ((deleteImage api cfg s₀ input).1 = DeleteOutcome.success ↔
          (deleteImageBody api cfg s₀ input).1 = Except.ok ()) := by
  intro σ api cfg s inputs
  constructor
  · induction inputs generalizing s with
    | nil => rfl
    | cons i is ih => simp [deleteImages, ih]
  · intro s₀ input
    cases hb : (deleteImageBody api cfg s₀ input).1 with
    | ok u =>
      cases u
      simp [deleteImage, hb]
    | error e =>
      cases e <;> simp [deleteImage, hb]

/-- Claim C5: in every run of `deleteImage` the request trace is either a
single GET of the resolved path's versioned contents URL whose answer was an
error — and then no DELETE is issued at all — or that GET answered with a file
descriptor and it is followed by exactly one DELETE of the same resolved path
carrying precisely the `sha` obtained by the GET, the generated commit message
and the configured branch. -/
theorem deleteImage_get_before_delete :
    ∀ (σ : Type) (api : DeleterApi σ) (cfg : ClientConfig) (s : σ)
      (input : List Char),
      (∃ e : JsError,
        (api.get s (shaUrl cfg
            (parsePath cfg.owner cfg.repo cfg.branch input))).1 =
          Except.error e ∧
        (deleteImage api cfg s input).2.1 =
          [ApiRequest.get (shaUrl cfg
            (parsePath cfg.owner cfg.repo cfg.branch input))]) ∨
      (∃ resp : GitHubFileResponse,
        (api.get s (shaUrl cfg
            (parsePath cfg.owner cfg.repo cfg.branch input))).1 =
          Except.ok resp ∧
        (deleteImage api cfg s input).2.1 =
          [ApiRequest.get (shaUrl cfg
              (parsePath cfg.owner cfg.repo cfg.branch input)),
            ApiRequest.delete
              (contentsUrl cfg (parsePath cfg.owner cfg.repo cfg.branch input))
              (deleteMessage (parsePath cfg.owner cfg.repo cfg.branch input))
              resp.sha cfg.branch]) := by
  intro σ api cfg s input
  cases hg : (api.get s (shaUrl cfg
      (parsePath cfg.owner cfg.repo cfg.branch input))).1 with
  | error e =>
    left
    exact ⟨e, rfl, by simp [deleteImage, deleteImageBody, getFileSha, hg]⟩
  | ok resp =>
    right
    refine ⟨resp, rfl, ?_⟩
    simp only [deleteImage, deleteImageBody, getFileSha, hg]
    cases hd : (api.del (api.get s (shaUrl cfg
        (parsePath cfg.owner cfg.repo cfg.branch input))).2
        (contentsUrl cfg (parsePath cfg.owner cfg.repo cfg.branch input))
        (deleteMessage (parsePath cfg.owner cfg.repo cfg.branch input))
        resp.sha cfg.branch).1 <;>
      simp [hd]

/-- Claim C2: the batch `uploadImages` returns exactly one entry per input, in
input order; entry `i` is the download URL of the `i`-th `uploadImage` call
when it succeeded and the empty string when it failed, and one `uploadImage`
call is made per input (a failure does not stop the remaining calls). -/
theorem uploadImages_positional :
    ∀ (σ γ : Type)
      (put : σ → PutRequest → Except JsError GitHubUploadResponse × σ)
      (fs : FileSystem γ) (cfg : ClientConfig) (now : σ → ℕ) (s : σ)
      (filePaths : List (List Char)) (remotePath : Option (List Char)),
      (uploadImages put fs cfg now s filePaths remotePath).1 =
        (uploadOutcomes put fs cfg now s filePaths remotePath).map
          (fun o =>
            match o with
            | Except.ok url => url
            | Except.error _ => []) ∧
      (uploadOutcomes put fs cfg now s filePaths remotePath).length =
        filePaths.length := by
  intro σ γ put fs cfg now s filePaths remotePath
  induction filePaths generalizing s with
  | nil => exact ⟨rfl, rfl⟩
  | cons p ps ih =>
    refine ⟨?_, ?_⟩
    · simp only [uploadImages, uploadOutcomes, List.map_cons]
      rw [(ih _).1]
    · simp only [uploadOutcomes, List.length_cons]
      rw [(ih _).2]

/-- Claim C8: when the local file does not exist, `uploadImage` fails
immediately with the distinct plain error `檔案不存在: ${localFilePath}`, issues
no HTTP request (empty trace) and leaves the world state untouched. -/
theorem uploadImage_missing_local_file :
    ∀ (σ γ : Type)
      (put : σ → PutRequest → Except JsError GitHubUploadResponse × σ)
      (fs : FileSystem γ) (cfg : ClientConfig) (now : σ → ℕ) (s : σ)
      (localFilePath : List Char)
      (remotePath customFileName : Option (List Char)),
      fs.existsSync localFilePath = false →
      uploadImage put fs cfg now s localFilePath remotePath customFileName =
        (Except.error (JsError.jsError ("檔案不存在: ".data ++ localFilePath)),
          ([], s)) := by
  intro σ γ put fs cfg now s localFilePath remotePath customFileName h
  simp [uploadImage, h]

/-- Witness for C8: a filesystem with no files rejects `a.png` with the local
not-found error and an empty request trace. -/
theorem uploadImage_missing_local_file_witness :
    uploadImage failingPut emptyFs sampleCfg (fun _ => 0) () "a.png".data
        none none =
      (Except.error (JsError.jsError ("檔案不存在: ".data ++ "a.png".data)),
        ([], ())) :=
  uploadImage_missing_local_file Unit Unit failingPut emptyFs sampleCfg
    (fun _ => 0) () "a.png".data none none rfl

lemma basename_foldl_no_slash (s : List Char) :
    ∀ acc : List Char, '/' ∉ s →
      s.foldl (fun acc c => if c = '/' then [] else acc ++ [c]) acc =
        acc ++ s := by
  induction s with
  | nil => intro acc _; simp
  | cons c cs ih =>
    intro acc h
    have hc : ¬c = '/' := fun hc => h (hc ▸ List.mem_cons_self c cs)
    have hcs : '/' ∉ cs := fun hm => h (List.mem_cons_of_mem c hm)
    simp only [List.foldl_cons, if_neg hc]
    rw [ih (acc ++ [c]) hcs]
    simp

lemma basename_no_slash {s : List Char} (h : '/' ∉ s) : basename s = s := by
  simpa [basename] using basename_foldl_no_slash s [] h

lemma lastDotIdx_lt {b : List Char} {i : ℕ} (h : lastDotIdx b = some i) :
    i < b.length := by
  rw [lastDotIdx] at h
  split at h
  · next hm =>
    have hpos : 0 < b.length :=
      List.length_pos.mpr (List.ne_nil_of_mem hm)
    simp only [Option.some.injEq] at h
    omega
  · exact absurd h (by simp)

lemma stem_append_extname {name : List Char} (h : '/' ∉ name) :
    basenameWithExt name (extname name) ++ extname name = name := by
  have hb : basename name = name := basename_no_slash h
  rw [extname, basenameWithExt, hb]
  cases hl : lastDotIdx name with
  | none => simp
  | some i =>
    cases i with
    | zero => simp
    | succ j =>
      have hlt : j + 1 < name.length := lastDotIdx_lt hl
      have hlen : (name.drop (j + 1)).length = name.length - (j + 1) :=
        List.length_drop _ _
      have hne : name.drop (j + 1) ≠ [] := by
        intro hnil
        rw [hnil] at hlen
        simp at hlen
        omega
      have hnes : name.drop (j + 1) ≠ name := by
        intro he
        have := congrArg List.length he
        rw [hlen] at this
        omega
      have hsub : name.length - (name.drop (j + 1)).length = j + 1 := by
        omega
      rw [if_pos ⟨hne, hnes, by rw [hsub]⟩, hsub]
      exact List.take_append_drop _ _

/-- Claim C7: with no custom name supplied, the generated upload file name is
`<original-stem>-<unix-epoch-millis><original-extension>`: it always differs
from the original file name and ends in the original's extension. -/
theorem generateFileName_fresh :
    ∀ (ts : ℕ) (name : List Char), '/' ∉ name →
      generateFileName ts name ≠ name ∧
      (∃ pre, generateFileName ts name = pre ++ extname name) ∧
      generateFileName ts name =
        basenameWithExt name (extname name) ++ "-".data ++ natChars ts ++
          extname name := by
  intro ts name h
  have hd := stem_append_extname h
  refine ⟨?_, ⟨basenameWithExt name (extname name) ++ "-".data ++ natChars ts,
    by simp [generateFileName]⟩, rfl⟩
  intro he
  have h1 := congrArg List.length he
  have h2 := congrArg List.length hd
  have hdash : ("-".data).length = 1 := rfl
  simp only [generateFileName, List.length_append, hdash] at h1 h2
  omega

/-- Witness for C7 at `ts = 1700000000000`, original name `photo.png`. -/
theorem generateFileName_fresh_witness :
    generateFileName 1700000000000 "photo.png".data ≠ "photo.png".data ∧
    (∃ pre, generateFileName 1700000000000 "photo.png".data =
      pre ++ extname "photo.png".data) ∧
    generateFileName 1700000000000 "photo.png".data =
      basenameWithExt "photo.png".data (extname "photo.png".data) ++
        "-".data ++ natChars 1700000000000 ++ extname "photo.png".data :=
  generateFileName_fresh 1700000000000 "photo.png".data (by decide)
